import Mathlib

/-!
Shallow embedding of `src/data_analyzer.py` (gravity-output batch decoder,
OBJ export and coordinate-range analysis).

Modelling conventions:
* The decompressed byte stream is a `List Nat` (each entry one byte).
  `struct.unpack('<I', b)` and `struct.unpack('<fff', b)` require exact
  lengths in Python; they are modelled as `Option`-returning functions.
* A particle `Position` is kept as the three 32-bit little-endian words read
  from its 12 bytes, i.e. the exact IEEE-754 float32 bit patterns.  Python's
  `struct.unpack('<fff', ...)` round-trips these bit patterns exactly, so
  bit-for-bit claims about decoded floats are claims about these words.
* Python operations that can raise (`struct.error`, `ZeroDivisionError`)
  return `none`; a `none` result of `read_gravity_batch` models an exception
  escaping the function.
* Diagnostic `print` calls at the decision points (header shortfall, size
  mismatch, particle-count correction, incomplete particle record) are
  modelled as an event list carried in the result.
* `gzip.open` is modelled by an abstract `Container` that is either corrupt
  (decompression raises) or yields the decompressed bytes.
-/

/-- Little-endian 32-bit word from four bytes. -/
def le32 (b0 b1 b2 b3 : Nat) : Nat :=
  b0 + 256 * b1 + 65536 * b2 + 16777216 * b3

/-- The 32-bit little-endian word starting at byte offset `k` of `data`
(out-of-range bytes default to 0; all uses are guarded by length facts). -/
def wordAt (data : List Nat) (k : Nat) : Nat :=
  le32 (data.getD k 0) (data.getD (k + 1) 0) (data.getD (k + 2) 0) (data.getD (k + 3) 0)

/-- `struct.unpack('<I', b)`: exactly 4 bytes, little-endian unsigned 32-bit. -/
def unpack_u32 (b : List Nat) : Option Nat :=
  if b.length = 4 then some (wordAt b 0) else none

/-- A decoded particle position: the three little-endian 32-bit words
(IEEE-754 float32 bit patterns) of x, y, z. -/
structure Pos3 where
  x : Nat
  y : Nat
  z : Nat
deriving DecidableEq

/-- `struct.unpack('<fff', b)`: exactly 12 bytes, three little-endian
32-bit values. -/
def unpack_fff (b : List Nat) : Option Pos3 :=
  if b.length = 12 then some ⟨wordAt b 0, wordAt b 4, wordAt b 8⟩ else none

/-- The position encoded at byte offset `k` of `data`. -/
def posAt (data : List Nat) (k : Nat) : Pos3 :=
  ⟨wordAt data k, wordAt data (k + 4), wordAt data (k + 8)⟩

/-- A sequential byte stream with a read position, the collaborator interface
consumed by the decoder (sequential read plus seek). -/
structure ByteStream where
  data : List Nat
  pos : Nat
deriving DecidableEq

/-- `f.read(n)`: up to `n` bytes from the current position, advancing it by
the number of bytes actually obtained. -/
def sread (st : ByteStream) (n : Nat) : List Nat × ByteStream :=
  let d := (st.data.drop st.pos).take n
  (d, ⟨st.data, st.pos + d.length⟩)

/-- `f.read()`: everything from the current position to end of stream. -/
def sreadAll (st : ByteStream) : List Nat × ByteStream :=
  let d := st.data.drop st.pos
  (d, ⟨st.data, st.pos + d.length⟩)

/-- Python's `//` on the nonnegative integers appearing here; raises
(`none`) on a zero divisor. -/
def pydiv (a b : Nat) : Option Nat :=
  if b = 0 then none else some (a / b)

/-- Diagnostic events, one per decision-point `print` in the source. -/
inductive DecodeEvent
  /-- line 20: could not read header, got `got` bytes -/
  | headerShortfall (got : Nat)
  /-- line 36: data size mismatch (expected vs. actual payload bytes) -/
  | sizeMismatch (expected actual : Nat)
  /-- line 40: calculated particles per frame -/
  | correctedParticles (n : Nat)
  /-- line 52: incomplete data at frame `frameIdx`, particle `particleIdx` -/
  | incompleteData (frameIdx particleIdx : Nat)
deriving DecidableEq

/-- Result of one `read_gravity_batch` call: the frames together with the
diagnostic events emitted while decoding. -/
structure BatchResult where
  frames : List (List Pos3)
  events : List DecodeEvent
deriving DecidableEq

/-- The inner loop (lines 49-56): read up to `count` positions into the
current frame, stopping early (keeping what was parsed, emitting the
line-52 diagnostic) when fewer than 12 bytes remain. -/
def readParticles (st : ByteStream) (frameIdx particleIdx count : Nat) :
    Option (List Pos3 × ByteStream × List DecodeEvent) :=
  match count with
  | 0 => some ([], st, [])
  | r + 1 =>
    let p := sread st 12
    if p.1.length < 12 then
      some ([], p.2, [DecodeEvent.incompleteData frameIdx particleIdx])
    else
      match unpack_fff p.1 with
      | none => none
      | some pos =>
        match readParticles p.2 frameIdx (particleIdx + 1) r with
        | none => none
        | some (ps, st2, evs) => some (pos :: ps, st2, evs)

/-- The outer loop (lines 47-57): one frame per declared frame index, each
read with the (possibly corrected) particle count. -/
def readFrames (st : ByteStream) (frameIdx numParticles framesRemaining : Nat) :
    Option (List (List Pos3) × ByteStream × List DecodeEvent) :=
  match framesRemaining with
  | 0 => some ([], st, [])
  | r + 1 =>
    match readParticles st frameIdx 0 numParticles with
    | none => none
    | some (ps, st2, evs1) =>
      match readFrames st2 (frameIdx + 1) numParticles r with
      | none => none
      | some (fs, st3, evs2) => some (ps :: fs, st3, evs1 ++ evs2)

/-- `read_gravity_batch` (lines 10-65) on the decompressed content of one
batch file.  `none` models an exception escaping the function. -/
def read_gravity_batch (content : List Nat) : Option BatchResult :=
  let st0 : ByteStream := ⟨content, 0⟩
  let p1 := sread st0 8
  let header_data := p1.1
  if header_data.length < 8 then
    some ⟨[], [DecodeEvent.headerShortfall header_data.length]⟩
  else
    match unpack_u32 (header_data.take 4), unpack_u32 (header_data.drop 4) with
    | some frames_per_file, some num_particles =>
      let remaining_data := (sreadAll p1.2).1
      let expected_bytes := frames_per_file * num_particles * 12
      let corr : Option (List DecodeEvent × Nat) :=
        if remaining_data.length ≠ expected_bytes then
          if frames_per_file > 0 then
            match pydiv remaining_data.length (frames_per_file * 12) with
            | none => none
            | some actual_particles =>
              some ([DecodeEvent.sizeMismatch expected_bytes remaining_data.length,
                     DecodeEvent.correctedParticles actual_particles], actual_particles)
          else
            some ([DecodeEvent.sizeMismatch expected_bytes remaining_data.length],
                  num_particles)
        else
          some ([], num_particles)
      match corr with
      | none => none
      | some (preEvents, np) =>
        match readFrames ⟨content, 8⟩ 0 np frames_per_file with
        | none => none
        | some (frames, _, loopEvents) => some ⟨frames, preEvents ++ loopEvents⟩
    | _, _ => none

/-- A compressed batch container: either undecompressable or well-formed
with known decompressed content (`gzip` is delegated to the standard
library). -/
inductive Container
  | corrupt
  | wellFormed (content : List Nat)

/-- Errors that `decode` can propagate to its caller. -/
inductive DecodeError
  | corruptArchive
  | internalError
deriving DecidableEq

/-- `decode`: decompress, then run `read_gravity_batch`; an internal `none`
would surface as an exception. -/
def decode (c : Container) : Except DecodeError BatchResult :=
  match c with
  | .corrupt => .error .corruptArchive
  | .wellFormed content =>
    match read_gravity_batch content with
    | none => .error .internalError
    | some r => .ok r

/-!
Consumer layer (`analyze_data_range`, lines 102-135, and
`export_to_obj_sequence`, lines 67-100).  These consume the float values of
decoded positions; coordinates are modelled as exact rationals (every finite
IEEE-754 float32 is one).  `float('inf')` / `float('-inf')` accumulator
starting values are modelled as `none` (`min(inf, x) = x` becomes
`omin none x = some x`), since `ℚ` has no infinities.
-/

/-- A decoded coordinate triple as consumed by analysis and export. -/
abbrev Vec3Q := ℚ × ℚ × ℚ

/-- The `min_coords` / `max_coords` accumulators (lines 105-106); `none`
models the `float('inf')` / `float('-inf')` starting values. -/
structure RangeAcc where
  min0 : Option ℚ
  min1 : Option ℚ
  min2 : Option ℚ
  max0 : Option ℚ
  max1 : Option ℚ
  max2 : Option ℚ
deriving DecidableEq

/-- Starting accumulator: all bounds at `±inf`. -/
def initAcc : RangeAcc := ⟨none, none, none, none, none, none⟩

/-- `min(bound, v)` with an `inf` starting bound. -/
def omin (o : Option ℚ) (v : ℚ) : Option ℚ :=
  match o with
  | none => some v
  | some m => some (min m v)

/-- `max(bound, v)` with a `-inf` starting bound. -/
def omax (o : Option ℚ) (v : ℚ) : Option ℚ :=
  match o with
  | none => some v
  | some m => some (max m v)

/-- Lines 118-123: fold one position into the six bounds. -/
def updatePoint (acc : RangeAcc) (p : Vec3Q) : RangeAcc :=
  ⟨omin acc.min0 p.1, omin acc.min1 p.2.1, omin acc.min2 p.2.2,
   omax acc.max0 p.1, omax acc.max1 p.2.1, omax acc.max2 p.2.2⟩

/-- Lines 117-123: fold one frame. -/
def updateFrame (acc : RangeAcc) (frame : List Vec3Q) : RangeAcc :=
  frame.foldl updatePoint acc

/-- Lines 116-123: fold one batch (its list of frames). -/
def updateBatch (acc : RangeAcc) (b : List (List Vec3Q)) : RangeAcc :=
  b.foldl updateFrame acc

/-- Failure mode of the scale suggestion: Python's `ZeroDivisionError`. -/
inductive AnalyzeError
  | divisionByZero
deriving DecidableEq

/-- Lines 131-132: `max_range = max(max_coords[i] - min_coords[i])` and
`suggested_scale = 10.0 / max_range`.  A zero `max_range` raises
`ZeroDivisionError` in Python, modelled as `.error`.  With no decoded
position at all every bound is still infinite and Python computes
`10.0 / (inf - (-inf)) = 10.0 / inf`, a zero result, modelled as `.ok 0`. -/
def suggestScale (acc : RangeAcc) : Except AnalyzeError ℚ :=
  match acc.min0, acc.min1, acc.min2, acc.max0, acc.max1, acc.max2 with
  | some a, some b, some c, some d, some e, some f =>
    let max_range := max (d - a) (max (e - b) (f - c))
    if max_range = 0 then .error .divisionByZero else .ok (10 / max_range)
  | _, _, _, _, _, _ => .ok 0

/-- `analyze_data_range` (lines 102-135) over the decoded frames of the
batch files found in the folder: accumulate global per-axis bounds, then
suggest `10.0 / max_range`. -/
def analyze_data_range (batches : List (List (List Vec3Q))) :
    Except AnalyzeError (RangeAcc × ℚ) :=
  let acc := batches.foldl updateBatch initAcc
  match suggestScale acc with
  | .error e => .error e
  | .ok s => .ok (acc, s)

/-- All decoded positions of all batches, in processing order. -/
def allPositions (batches : List (List (List Vec3Q))) : List Vec3Q :=
  batches.flatten.flatten

/-- One exported OBJ file (lines 84-97): its frame number, the particle
count written in the header comment, and one `v x y z` vertex entry per
position, in order. -/
structure ObjFile where
  frameNumber : Nat
  particleCount : Nat
  verts : List Vec3Q
deriving DecidableEq

/-- Lines 93-97: a vertex line's coordinates, scaled by `scale_factor`. -/
def scalePoint (scale_factor : ℚ) (p : Vec3Q) : Vec3Q :=
  (p.1 * scale_factor, p.2.1 * scale_factor, p.2.2 * scale_factor)

/-- Lines 82-97: export the frames of one batch, threading the global
`frame_counter` (incremented before each file is written). -/
def exportFrames (frames : List (List Vec3Q)) (scale_factor : ℚ)
    (frame_counter : Nat) : List ObjFile × Nat :=
  match frames with
  | [] => ([], frame_counter)
  | frame_data :: rest =>
    let c := frame_counter + 1
    let file : ObjFile := ⟨c, frame_data.length, frame_data.map (scalePoint scale_factor)⟩
    let p := exportFrames rest scale_factor c
    (file :: p.1, p.2)

/-- `export_to_obj_sequence` (lines 67-100) over the decoded frames of the
batch files found in the folder: one OBJ file per frame, numbered by the
global counter. -/
def export_to_obj_sequence (batches : List (List (List Vec3Q)))
    (scale_factor : ℚ) : List ObjFile :=
  (batches.foldl (fun st b =>
    let p := exportFrames b scale_factor st.2
    (st.1 ++ p.1, p.2)) (([], 0) : List ObjFile × Nat)).1

theorem getD_eq (l : List Nat) (k : Nat) : l.getD k 0 = l[k]?.getD 0 := by
  simp [List.getD]

theorem getD_drop (l : List Nat) (n k : Nat) :
    (l.drop n).getD k 0 = l.getD (n + k) 0 := by
  simp [getD_eq, List.getElem?_drop]

theorem getD_take (l : List Nat) (n k : Nat) (h : k < n) :
    (l.take n).getD k 0 = l.getD k 0 := by
  simp [getD_eq, List.getElem?_take, h]

theorem wordAt_drop (l : List Nat) (n k : Nat) :
    wordAt (l.drop n) k = wordAt l (n + k) := by
  simp [wordAt, getD_drop, Nat.add_assoc]

theorem wordAt_take (l : List Nat) (n k : Nat) (h : k + 4 ≤ n) :
    wordAt (l.take n) k = wordAt l k := by
  unfold wordAt
  rw [getD_take l n k (by omega), getD_take l n (k+1) (by omega),
      getD_take l n (k+2) (by omega), getD_take l n (k+3) (by omega)]

theorem posAt_drop (l : List Nat) (n k : Nat) :
    posAt (l.drop n) k = posAt l (n + k) := by
  simp [posAt, wordAt_drop, Nat.add_assoc]

theorem unpack_fff_full (b : List Nat) (h : b.length = 12) :
    unpack_fff b = some ⟨wordAt b 0, wordAt b 4, wordAt b 8⟩ := by
  simp [unpack_fff, h]

theorem take12_length (data : List Nat) (pos : Nat) (h : pos + 12 ≤ data.length) :
    ((data.drop pos).take 12).length = 12 := by
  simp [List.length_take, List.length_drop]; omega

theorem unpack_fff_at (data : List Nat) (pos : Nat) (h : pos + 12 ≤ data.length) :
    unpack_fff ((data.drop pos).take 12) = some (posAt data pos) := by
  rw [unpack_fff_full _ (take12_length data pos h)]
  have h0 : wordAt ((data.drop pos).take 12) 0 = wordAt data (pos + 0) := by
    rw [wordAt_take _ _ _ (by omega), wordAt_drop]
  have h4 : wordAt ((data.drop pos).take 12) 4 = wordAt data (pos + 4) := by
    rw [wordAt_take _ _ _ (by omega), wordAt_drop]
  have h8 : wordAt ((data.drop pos).take 12) 8 = wordAt data (pos + 8) := by
    rw [wordAt_take _ _ _ (by omega), wordAt_drop]
  rw [h0, h4, h8]
  simp [posAt]

/-- Inner loop with enough bytes: all `count` positions are read, in order,
each from its 12-byte record, with no diagnostic. -/
theorem readParticles_full (count : Nat) (data : List Nat) (pos fIdx pIdx : Nat)
    (h : pos + 12 * count ≤ data.length) :
    readParticles ⟨data, pos⟩ fIdx pIdx count =
      some ((List.range count).map (fun j => posAt data (pos + 12 * j)),
            ⟨data, pos + 12 * count⟩, []) := by
  induction count generalizing pos pIdx with
  | zero => simp [readParticles]
  | succ r ih =>
    have hd : ((data.drop pos).take 12).length = 12 :=
      take12_length data pos (by omega)
    unfold readParticles
    simp only [sread, hd]
    rw [if_neg (by omega), unpack_fff_at data pos (by omega)]
    rw [ih (pos + 12) (pIdx + 1) (by omega)]
    have hfun : ((fun j => posAt data (pos + 12 * j)) ∘ Nat.succ) =
        (fun j => posAt data (pos + 12 + 12 * j)) := by
      funext j
      show posAt data (pos + 12 * (j + 1)) = posAt data (pos + 12 + 12 * j)
      congr 1
      ring
    have hr : (List.range (r + 1)).map (fun j => posAt data (pos + 12 * j)) =
        posAt data pos :: (List.range r).map (fun j => posAt data (pos + 12 + 12 * j)) := by
      rw [List.range_succ_eq_map, List.map_cons, List.map_map, hfun]
      norm_num
    rw [hr]
    have h2 : pos + 12 * (r + 1) = pos + 12 + 12 * r := by ring
    rw [h2]

/-- Outer loop with enough bytes: `framesRemaining` full frames, each of
`numParticles` positions taken from consecutive 12-byte records. -/
theorem readFrames_full (fpf : Nat) (data : List Nat) (pos np fIdx : Nat)
    (h : pos + 12 * np * fpf ≤ data.length) :
    readFrames ⟨data, pos⟩ fIdx np fpf =
      some ((List.range fpf).map (fun i => (List.range np).map
              (fun j => posAt data (pos + 12 * (np * i + j)))),
            ⟨data, pos + 12 * np * fpf⟩, []) := by
  induction fpf generalizing pos fIdx with
  | zero => simp [readFrames]
  | succ r ih =>
    have hs : 12 * np * (r + 1) = 12 * np * r + 12 * np := by ring
    unfold readFrames
    rw [readParticles_full np data pos fIdx 0 (by omega)]
    dsimp only
    rw [ih (pos + 12 * np) (fIdx + 1) (by omega)]
    dsimp only
    have hfun : ((fun i => (List.range np).map
          (fun j => posAt data (pos + 12 * (np * i + j)))) ∘ Nat.succ) =
        (fun i => (List.range np).map
          (fun j => posAt data (pos + 12 * np + 12 * (np * i + j)))) := by
      funext i
      show (List.range np).map (fun j => posAt data (pos + 12 * (np * (i + 1) + j))) =
        (List.range np).map (fun j => posAt data (pos + 12 * np + 12 * (np * i + j)))
      have hg : (fun j => posAt data (pos + 12 * (np * (i + 1) + j))) =
          (fun j => posAt data (pos + 12 * np + 12 * (np * i + j))) := by
        funext j
        congr 1
        ring
      rw [hg]
    have hfirst : (fun j => posAt data (pos + 12 * j)) =
        (fun j => posAt data (pos + 12 * (np * 0 + j))) := by
      funext j
      congr 1
      ring
    have hr : (List.range (r + 1)).map (fun i => (List.range np).map
          (fun j => posAt data (pos + 12 * (np * i + j)))) =
        ((List.range np).map (fun j => posAt data (pos + 12 * j))) ::
          (List.range r).map (fun i => (List.range np).map
            (fun j => posAt data (pos + 12 * np + 12 * (np * i + j)))) := by
      rw [List.range_succ_eq_map, List.map_cons, List.map_map, hfun, hfirst]
    rw [hr]
    have h2 : pos + 12 * np * (r + 1) = pos + 12 * np + 12 * np * r := by ring
    rw [h2]
    simp

theorem unpack_u32_take4 (l : List Nat) (h : 4 ≤ l.length) :
    unpack_u32 (l.take 4) = some (wordAt l 0) := by
  have hl : (l.take 4).length = 4 := by simp [List.length_take]; omega
  rw [unpack_u32, if_pos hl, wordAt_take l 4 0 (by omega)]

/-- Evaluation of `read_gravity_batch` past the header check: with at least
8 bytes, the two header words are read and the size check, optional
correction and frame loop run on the remaining bytes. -/
theorem read_gravity_batch_eq (content : List Nat) (h8 : 8 ≤ content.length) :
    read_gravity_batch content =
      match (if content.length - 8 ≠ wordAt content 0 * wordAt content 4 * 12 then
               if wordAt content 0 > 0 then
                 match pydiv (content.length - 8) (wordAt content 0 * 12) with
                 | none => none
                 | some actual_particles =>
                   some ([DecodeEvent.sizeMismatch
                            (wordAt content 0 * wordAt content 4 * 12)
                            (content.length - 8),
                          DecodeEvent.correctedParticles actual_particles],
                         actual_particles)
               else
                 some ([DecodeEvent.sizeMismatch
                          (wordAt content 0 * wordAt content 4 * 12)
                          (content.length - 8)], wordAt content 4)
             else some ([], wordAt content 4) : Option (List DecodeEvent × Nat)) with
      | none => none
      | some (preEvents, np) =>
        match readFrames ⟨content, 8⟩ 0 np (wordAt content 0) with
        | none => none
        | some (frames, _, loopEvents) => some ⟨frames, preEvents ++ loopEvents⟩ := by
  unfold read_gravity_batch
  simp only [sread, sreadAll, List.drop_zero]
  have hlen8 : (content.take 8).length = 8 := by simp [List.length_take]; omega
  rw [hlen8]
  rw [if_neg (by omega)]
  rw [List.take_take]
  norm_num
  rw [unpack_u32_take4 content (by omega)]
  rw [List.drop_take]
  norm_num
  rw [unpack_u32_take4 (content.drop 4) (by simp [List.length_drop]; omega)]
  rw [wordAt_drop]

theorem getD_map_range {α : Type} (n i : Nat) (f : Nat → α) (d : α) (h : i < n) :
    ((List.range n).map f).getD i d = f i := by
  rw [List.getD_eq_getElem?_getD, List.getElem?_map, List.getElem?_range h]
  rfl

/-- C1: on an input whose payload length matches the header exactly, decode
returns `framesPerFile` frames of `numParticles` positions each, every
position being, bit for bit, the little-endian float32 triple at its byte
offset in the payload. -/
theorem decode_exact_payload (content : List Nat) (h8 : 8 ≤ content.length)
    (hlen : content.length - 8 = wordAt content 0 * wordAt content 4 * 12) :
    ∃ r : BatchResult,
      read_gravity_batch content = some r ∧
      r.frames.length = wordAt content 0 ∧
      (∀ i, i < wordAt content 0 → (r.frames.getD i []).length = wordAt content 4) ∧
      (∀ i j, i < wordAt content 0 → j < wordAt content 4 →
        (r.frames.getD i []).getD j ⟨0, 0, 0⟩ =
          posAt (content.drop 8) (12 * (wordAt content 4 * i + j))) := by
  rw [read_gravity_batch_eq content h8]
  rw [if_neg (by omega)]
  dsimp only
  have hfit : 8 + 12 * wordAt content 4 * wordAt content 0 ≤ content.length := by
    have : wordAt content 0 * wordAt content 4 * 12 =
        12 * wordAt content 4 * wordAt content 0 := by ring
    omega
  rw [readFrames_full (wordAt content 0) content 8 (wordAt content 4) 0 hfit]
  refine ⟨_, rfl, ?_, ?_, ?_⟩
  · simp
  · intro i hi
    rw [getD_map_range _ _ _ _ hi]
    simp
  · intro i j hi hj
    rw [getD_map_range _ _ _ _ hi, getD_map_range _ _ _ _ hj, posAt_drop]

/-- Witness for C1: a 2-frame, 1-particle batch with a matching payload. -/
theorem decode_exact_payload_witness :
    8 ≤ ([2,0,0,0, 1,0,0,0, 10,11,12,13,14,15,16,17,18,19,20,21,
          30,31,32,33,34,35,36,37,38,39,40,41] : List Nat).length ∧
    ([2,0,0,0, 1,0,0,0, 10,11,12,13,14,15,16,17,18,19,20,21,
      30,31,32,33,34,35,36,37,38,39,40,41] : List Nat).length - 8 =
      wordAt [2,0,0,0, 1,0,0,0, 10,11,12,13,14,15,16,17,18,19,20,21,
              30,31,32,33,34,35,36,37,38,39,40,41] 0 *
      wordAt [2,0,0,0, 1,0,0,0, 10,11,12,13,14,15,16,17,18,19,20,21,
              30,31,32,33,34,35,36,37,38,39,40,41] 4 * 12 ∧
    ∃ r : BatchResult,
      read_gravity_batch
          [2,0,0,0, 1,0,0,0, 10,11,12,13,14,15,16,17,18,19,20,21,
           30,31,32,33,34,35,36,37,38,39,40,41] = some r ∧
      r.frames.length = wordAt [2,0,0,0, 1,0,0,0, 10,11,12,13,14,15,16,17,18,19,20,21,
              30,31,32,33,34,35,36,37,38,39,40,41] 0 ∧
      (∀ i, i < wordAt [2,0,0,0, 1,0,0,0, 10,11,12,13,14,15,16,17,18,19,20,21,
              30,31,32,33,34,35,36,37,38,39,40,41] 0 →
        (r.frames.getD i []).length =
          wordAt [2,0,0,0, 1,0,0,0, 10,11,12,13,14,15,16,17,18,19,20,21,
              30,31,32,33,34,35,36,37,38,39,40,41] 4) ∧
      (∀ i j, i < wordAt [2,0,0,0, 1,0,0,0, 10,11,12,13,14,15,16,17,18,19,20,21,
              30,31,32,33,34,35,36,37,38,39,40,41] 0 →
        j < wordAt [2,0,0,0, 1,0,0,0, 10,11,12,13,14,15,16,17,18,19,20,21,
              30,31,32,33,34,35,36,37,38,39,40,41] 4 →
        (r.frames.getD i []).getD j ⟨0, 0, 0⟩ =
          posAt (([2,0,0,0, 1,0,0,0, 10,11,12,13,14,15,16,17,18,19,20,21,
                   30,31,32,33,34,35,36,37,38,39,40,41] : List Nat).drop 8)
            (12 * (wordAt [2,0,0,0, 1,0,0,0, 10,11,12,13,14,15,16,17,18,19,20,21,
              30,31,32,33,34,35,36,37,38,39,40,41] 4 * i + j))) :=
  ⟨by decide, by decide,
   decode_exact_payload
     [2,0,0,0, 1,0,0,0, 10,11,12,13,14,15,16,17,18,19,20,21,
      30,31,32,33,34,35,36,37,38,39,40,41] (by decide) (by decide)⟩

theorem rgb_of_short (content : List Nat) (h : content.length < 8) :
    read_gravity_batch content =
      some ⟨[], [DecodeEvent.headerShortfall content.length]⟩ := by
  unfold read_gravity_batch
  simp only [sread, List.drop_zero]
  have hl : (content.take 8).length = content.length := by
    simp [List.length_take]; omega
  rw [hl, if_pos h]

/-- C5: an input shorter than 8 bytes yields an empty batch plus the
header-shortfall diagnostic, with no exception. -/
theorem short_header_empty_batch (content : List Nat) (h : content.length < 8) :
    read_gravity_batch content =
      some ⟨[], [DecodeEvent.headerShortfall content.length]⟩ :=
  rgb_of_short content h

/-- Witness for C5: a 3-byte stream. -/
theorem short_header_empty_batch_witness :
    ([1, 2, 3] : List Nat).length < 8 ∧
    read_gravity_batch [1, 2, 3] =
      some ⟨[], [DecodeEvent.headerShortfall ([1, 2, 3] : List Nat).length]⟩ :=
  ⟨by decide, short_header_empty_batch [1, 2, 3] (by decide)⟩

/-- C6: a declared frame count of zero yields an empty batch whatever the
payload holds, and the particle-count correction (the division by
`framesPerFile * 12`) is skipped. -/
theorem zero_frames_empty_batch (content : List Nat) (h8 : 8 ≤ content.length)
    (hz : wordAt content 0 = 0) :
    ∃ evs, read_gravity_batch content = some ⟨[], evs⟩ ∧
      ∀ n, DecodeEvent.correctedParticles n ∉ evs := by
  rw [read_gravity_batch_eq content h8, hz]
  by_cases hm : content.length - 8 ≠ 0 * wordAt content 4 * 12
  · rw [if_pos hm, if_neg (by omega)]
    dsimp only
    rw [show readFrames ⟨content, 8⟩ 0 (wordAt content 4) 0 = some ([], ⟨content, 8⟩, [])
        from rfl]
    exact ⟨_, rfl, by simp⟩
  · rw [if_neg hm]
    dsimp only
    rw [show readFrames ⟨content, 8⟩ 0 (wordAt content 4) 0 = some ([], ⟨content, 8⟩, [])
        from rfl]
    exact ⟨_, rfl, by simp⟩

/-- Witness for C6: header declares 0 frames, 5 particles, 3 payload bytes. -/
theorem zero_frames_empty_batch_witness :
    8 ≤ ([0,0,0,0, 5,0,0,0, 7,8,9] : List Nat).length ∧
    wordAt [0,0,0,0, 5,0,0,0, 7,8,9] 0 = 0 ∧
    ∃ evs, read_gravity_batch [0,0,0,0, 5,0,0,0, 7,8,9] = some ⟨[], evs⟩ ∧
      ∀ n, DecodeEvent.correctedParticles n ∉ evs :=
  ⟨by decide, by decide, zero_frames_empty_batch [0,0,0,0, 5,0,0,0, 7,8,9] (by decide) (by decide)⟩

/-- C3: on a payload-size mismatch with a positive declared frame count,
decode recomputes the particle count as `len(payload) // (framesPerFile * 12)`,
runs the whole frame loop with that corrected count (every frame comes back
with exactly that many positions), and returns normally. -/
theorem decode_mismatch_corrects_particle_count (content : List Nat)
    (h8 : 8 ≤ content.length)
    (hpos : 0 < wordAt content 0)
    (hmm : content.length - 8 ≠ wordAt content 0 * wordAt content 4 * 12) :
    ∃ frames st evs,
      readFrames ⟨content, 8⟩ 0 ((content.length - 8) / (wordAt content 0 * 12))
          (wordAt content 0) = some (frames, st, evs) ∧
      read_gravity_batch content =
        some ⟨frames,
              [DecodeEvent.sizeMismatch (wordAt content 0 * wordAt content 4 * 12)
                 (content.length - 8),
               DecodeEvent.correctedParticles
                 ((content.length - 8) / (wordAt content 0 * 12))] ++ evs⟩ ∧
      frames.length = wordAt content 0 ∧
      (∀ i, i < wordAt content 0 →
        (frames.getD i []).length = (content.length - 8) / (wordAt content 0 * 12)) := by
  rw [read_gravity_batch_eq content h8]
  rw [if_pos hmm, if_pos hpos]
  rw [show pydiv (content.length - 8) (wordAt content 0 * 12) =
        some ((content.length - 8) / (wordAt content 0 * 12)) by
      rw [pydiv, if_neg (Nat.mul_ne_zero (by omega) (by omega))]]
  dsimp only
  have hdm : ((content.length - 8) / (wordAt content 0 * 12)) * (wordAt content 0 * 12) ≤
      content.length - 8 := Nat.div_mul_le_self _ _
  have heq : 12 * ((content.length - 8) / (wordAt content 0 * 12)) * wordAt content 0 =
      ((content.length - 8) / (wordAt content 0 * 12)) * (wordAt content 0 * 12) := by ring
  have hfit : 8 + 12 * ((content.length - 8) / (wordAt content 0 * 12)) * wordAt content 0 ≤
      content.length := by omega
  rw [readFrames_full (wordAt content 0) content 8
    ((content.length - 8) / (wordAt content 0 * 12)) 0 hfit]
  refine ⟨_, _, _, rfl, rfl, by simp, ?_⟩
  intro i hi
  rw [getD_map_range _ _ _ _ hi]
  simp

/-- Witness for C3: header declares 1 frame of 2 particles (24 payload
bytes expected) but only 13 arrive; corrected count is `13 // 12 = 1`. -/
theorem decode_mismatch_corrects_particle_count_witness :
    8 ≤ ([1,0,0,0, 2,0,0,0, 1,2,3,4,5,6,7,8,9,10,11,12,13] : List Nat).length ∧
    0 < wordAt [1,0,0,0, 2,0,0,0, 1,2,3,4,5,6,7,8,9,10,11,12,13] 0 ∧
    ([1,0,0,0, 2,0,0,0, 1,2,3,4,5,6,7,8,9,10,11,12,13] : List Nat).length - 8 ≠
      wordAt [1,0,0,0, 2,0,0,0, 1,2,3,4,5,6,7,8,9,10,11,12,13] 0 *
        wordAt [1,0,0,0, 2,0,0,0, 1,2,3,4,5,6,7,8,9,10,11,12,13] 4 * 12 ∧
    ∃ frames st evs,
      readFrames ⟨[1,0,0,0, 2,0,0,0, 1,2,3,4,5,6,7,8,9,10,11,12,13], 8⟩ 0
          ((([1,0,0,0, 2,0,0,0, 1,2,3,4,5,6,7,8,9,10,11,12,13] : List Nat).length - 8) /
            (wordAt [1,0,0,0, 2,0,0,0, 1,2,3,4,5,6,7,8,9,10,11,12,13] 0 * 12))
          (wordAt [1,0,0,0, 2,0,0,0, 1,2,3,4,5,6,7,8,9,10,11,12,13] 0) =
        some (frames, st, evs) ∧
      read_gravity_batch [1,0,0,0, 2,0,0,0, 1,2,3,4,5,6,7,8,9,10,11,12,13] =
        some ⟨frames,
              [DecodeEvent.sizeMismatch
                 (wordAt [1,0,0,0, 2,0,0,0, 1,2,3,4,5,6,7,8,9,10,11,12,13] 0 *
                   wordAt [1,0,0,0, 2,0,0,0, 1,2,3,4,5,6,7,8,9,10,11,12,13] 4 * 12)
                 (([1,0,0,0, 2,0,0,0, 1,2,3,4,5,6,7,8,9,10,11,12,13] : List Nat).length - 8),
               DecodeEvent.correctedParticles
                 ((([1,0,0,0, 2,0,0,0, 1,2,3,4,5,6,7,8,9,10,11,12,13] : List Nat).length - 8) /
                   (wordAt [1,0,0,0, 2,0,0,0, 1,2,3,4,5,6,7,8,9,10,11,12,13] 0 * 12))] ++ evs⟩ ∧
      frames.length = wordAt [1,0,0,0, 2,0,0,0, 1,2,3,4,5,6,7,8,9,10,11,12,13] 0 ∧
      (∀ i, i < wordAt [1,0,0,0, 2,0,0,0, 1,2,3,4,5,6,7,8,9,10,11,12,13] 0 →
        (frames.getD i []).length =
          (([1,0,0,0, 2,0,0,0, 1,2,3,4,5,6,7,8,9,10,11,12,13] : List Nat).length - 8) /
            (wordAt [1,0,0,0, 2,0,0,0, 1,2,3,4,5,6,7,8,9,10,11,12,13] 0 * 12)) :=
  ⟨by decide, by decide, by decide,
   decode_mismatch_corrects_particle_count
     [1,0,0,0, 2,0,0,0, 1,2,3,4,5,6,7,8,9,10,11,12,13]
     (by decide) (by decide) (by decide)⟩

theorem readParticles_total (count : Nat) :
    ∀ (st : ByteStream) (fIdx pIdx : Nat),
      ∃ out, readParticles st fIdx pIdx count = some out := by
  induction count with
  | zero => intro st fIdx pIdx; exact ⟨_, rfl⟩
  | succ r ih =>
    intro st fIdx pIdx
    unfold readParticles
    by_cases hd : (sread st 12).1.length < 12
    · rw [if_pos hd]; exact ⟨_, rfl⟩
    · rw [if_neg hd]
      have hle : (sread st 12).1.length ≤ 12 := by
        simp [sread, List.length_take]
      rw [unpack_fff_full _ (by omega)]
      obtain ⟨⟨ps, st2, evs⟩, hrec⟩ := ih (sread st 12).2 fIdx (pIdx + 1)
      rw [hrec]
      exact ⟨_, rfl⟩

theorem readFrames_total (framesRemaining : Nat) :
    ∀ (st : ByteStream) (fIdx np : Nat),
      ∃ out, readFrames st fIdx np framesRemaining = some out := by
  induction framesRemaining with
  | zero => intro st fIdx np; exact ⟨_, rfl⟩
  | succ r ih =>
    intro st fIdx np
    unfold readFrames
    obtain ⟨⟨ps, st2, evs1⟩, h1⟩ := readParticles_total np st fIdx 0
    rw [h1]
    dsimp only
    obtain ⟨⟨fs, st3, evs2⟩, h2⟩ := ih st2 (fIdx + 1) np
    rw [h2]
    exact ⟨_, rfl⟩

/-- `read_gravity_batch` returns normally on every input stream: no code
path inside it raises. -/
theorem read_gravity_batch_total (content : List Nat) :
    ∃ r, read_gravity_batch content = some r := by
  by_cases h8 : 8 ≤ content.length
  · rw [read_gravity_batch_eq content h8]
    by_cases hm : content.length - 8 ≠ wordAt content 0 * wordAt content 4 * 12
    · rw [if_pos hm]
      by_cases hf : wordAt content 0 > 0
      · rw [if_pos hf]
        rw [show pydiv (content.length - 8) (wordAt content 0 * 12) =
              some ((content.length - 8) / (wordAt content 0 * 12)) by
            rw [pydiv, if_neg (Nat.mul_ne_zero (by omega) (by omega))]]
        dsimp only
        obtain ⟨⟨fs, st3, evs⟩, h2⟩ := readFrames_total (wordAt content 0) ⟨content, 8⟩ 0
          ((content.length - 8) / (wordAt content 0 * 12))
        rw [h2]
        exact ⟨_, rfl⟩
      · rw [if_neg hf]
        dsimp only
        obtain ⟨⟨fs, st3, evs⟩, h2⟩ := readFrames_total (wordAt content 0) ⟨content, 8⟩ 0
          (wordAt content 4)
        rw [h2]
        exact ⟨_, rfl⟩
    · rw [if_neg hm]
      dsimp only
      obtain ⟨⟨fs, st3, evs⟩, h2⟩ := readFrames_total (wordAt content 0) ⟨content, 8⟩ 0
        (wordAt content 4)
      rw [h2]
      exact ⟨_, rfl⟩
  · rw [rgb_of_short content (by omega)]
    exact ⟨_, rfl⟩

/-- C2: `decode` propagates an error to its caller exactly when the
compressed container cannot be decompressed; on every well-formed container
— whatever the header/payload mismatch, truncation, or header shortfall —
it returns a batch normally. -/
theorem decode_error_iff_corrupt (c : Container) :
    (∃ e, decode c = Except.error e) ↔ c = Container.corrupt := by
  cases c with
  | corrupt => exact ⟨fun _ => rfl, fun _ => ⟨DecodeError.corruptArchive, rfl⟩⟩
  | wellFormed content =>
    constructor
    · rintro ⟨e, he⟩
      obtain ⟨r, hr⟩ := read_gravity_batch_total content
      rw [show decode (Container.wellFormed content) = Except.ok r by
        unfold decode; dsimp only; rw [hr]] at he
      exact absurd he (by simp)
    · intro h
      exact absurd h (by simp)

theorem range_succ_map {α : Type} (n : Nat) (f : Nat → α) (g : Nat → α)
    (hg : ∀ i, f (i + 1) = g i) :
    (List.range (n + 1)).map f = f 0 :: (List.range n).map g := by
  rw [List.range_succ_eq_map, List.map_cons, List.map_map]
  have h : f ∘ Nat.succ = g := by
    funext i
    exact hg i
  rw [h]

/-- Inner loop against a stream with fewer than `12 * count` bytes left:
exactly `(avail / 12)` positions are parsed, the short read consumes the
tail, and the line-52 diagnostic carries the stopping particle index. -/
theorem readParticles_trunc (count : Nat) (data : List Nat) (pos fIdx pIdx : Nat)
    (hle : pos ≤ data.length) (hlt : data.length < pos + 12 * count) :
    readParticles ⟨data, pos⟩ fIdx pIdx count =
      some ((List.range ((data.length - pos) / 12)).map
              (fun j => posAt data (pos + 12 * j)),
            ⟨data, data.length⟩,
            [DecodeEvent.incompleteData fIdx (pIdx + (data.length - pos) / 12)]) := by
  induction count generalizing pos pIdx with
  | zero => exact absurd hlt (by omega)
  | succ r ih =>
    by_cases h12 : pos + 12 ≤ data.length
    · have hd : ((data.drop pos).take 12).length = 12 := take12_length data pos h12
      unfold readParticles
      simp only [sread, hd]
      rw [if_neg (by omega), unpack_fff_at data pos h12]
      rw [ih (pos + 12) (pIdx + 1) (by omega) (by omega)]
      dsimp only
      have hq : (data.length - pos) / 12 = (data.length - (pos + 12)) / 12 + 1 := by
        have h' : data.length - pos = (data.length - (pos + 12)) + 12 := by omega
        rw [h', Nat.add_div_right _ (by norm_num)]
      rw [hq]
      rw [range_succ_map _ _ (fun j => posAt data (pos + 12 + 12 * j)) (fun i => by
        show posAt data (pos + 12 * (i + 1)) = posAt data (pos + 12 + 12 * i)
        congr 1
        ring)]
      have h0 : pos + 12 * 0 = pos := by ring
      rw [h0]
      have he : pIdx + ((data.length - (pos + 12)) / 12 + 1) =
          pIdx + 1 + (data.length - (pos + 12)) / 12 := by ring
      rw [he]
    · have hdlen : ((data.drop pos).take 12).length = data.length - pos := by
        simp [List.length_take, List.length_drop]; omega
      unfold readParticles
      simp only [sread, hdlen]
      rw [if_pos (by omega)]
      have hq : (data.length - pos) / 12 = 0 := Nat.div_eq_of_lt (by omega)
      rw [hq]
      have hp : pos + (data.length - pos) = data.length := by omega
      rw [hp]
      simp

/-- Outer loop on an exhausted stream: every remaining frame comes back
empty, each with its own line-52 diagnostic at particle index 0. -/
theorem readFrames_exhausted (r : Nat) (data : List Nat) (np : Nat) (hnp : 0 < np) :
    ∀ fIdx, readFrames ⟨data, data.length⟩ fIdx np r =
      some (List.replicate r [], ⟨data, data.length⟩,
            (List.range r).map (fun i => DecodeEvent.incompleteData (fIdx + i) 0)) := by
  induction r with
  | zero => intro fIdx; simp [readFrames]
  | succ r ih =>
    intro fIdx
    unfold readFrames
    rw [readParticles_trunc np data data.length fIdx 0 (le_refl _) (by omega)]
    simp only [Nat.sub_self, Nat.zero_div, List.range_zero, List.map_nil, Nat.add_zero]
    rw [ih (fIdx + 1)]
    dsimp only
    rw [range_succ_map _ _ (fun i => DecodeEvent.incompleteData (fIdx + 1 + i) 0) (fun i => by
      show DecodeEvent.incompleteData (fIdx + (i + 1)) 0 =
        DecodeEvent.incompleteData (fIdx + 1 + i) 0
      congr 1
      ring)]
    simp [List.replicate_succ]


/-- Outer loop against a stream with fewer than `12 * np * fpf` bytes left:
frames before the truncation point are full, the truncation frame keeps the
positions parsed before the short read, every later frame is empty, and one
line-52 diagnostic is emitted for the truncation frame and for each later
frame. -/
theorem readFrames_trunc (fpf : Nat) (data : List Nat) (pos np fIdx : Nat)
    (hle : pos ≤ data.length) (hlt : data.length < pos + 12 * np * fpf) :
    readFrames ⟨data, pos⟩ fIdx np fpf =
      some ((List.range fpf).map (fun i =>
              if i < (data.length - pos) / 12 / np then
                (List.range np).map (fun j => posAt data (pos + 12 * (np * i + j)))
              else if i = (data.length - pos) / 12 / np then
                (List.range ((data.length - pos) / 12 % np)).map
                  (fun j => posAt data
                    (pos + 12 * (np * ((data.length - pos) / 12 / np) + j)))
              else []),
            ⟨data, data.length⟩,
            DecodeEvent.incompleteData (fIdx + (data.length - pos) / 12 / np)
                ((data.length - pos) / 12 % np) ::
              (List.range (fpf - (data.length - pos) / 12 / np - 1)).map
                (fun i => DecodeEvent.incompleteData
                  (fIdx + (data.length - pos) / 12 / np + 1 + i) 0)) := by
  induction fpf generalizing pos fIdx with
  | zero => exact absurd hlt (by omega)
  | succ r ih =>
    have hnp : 0 < np := by
      rcases Nat.eq_zero_or_pos np with h0 | h
      · rw [h0] at hlt; simp at hlt; omega
      · exact h
    by_cases hfull : pos + 12 * np ≤ data.length
    · -- the first frame is full; the truncation point lies further on
      have hq_ge : np ≤ (data.length - pos) / 12 := by
        rw [Nat.le_div_iff_mul_le (by norm_num)]
        omega
      have ht1 : 1 ≤ (data.length - pos) / 12 / np := by
        rw [Nat.le_div_iff_mul_le hnp]
        omega
      obtain ⟨s, hs⟩ : ∃ s, (data.length - pos) / 12 / np = s + 1 :=
        ⟨(data.length - pos) / 12 / np - 1, by omega⟩
      have hq' : (data.length - (pos + 12 * np)) / 12 = (data.length - pos) / 12 - np := by
        have h1 : data.length - (pos + 12 * np) = (data.length - pos) - 12 * np := by omega
        rw [h1, Nat.sub_mul_div _ _ _ (by omega)]
      have ht' : ((data.length - pos) / 12 - np) / np = s := by
        have h2 : (data.length - pos) / 12 - np = (data.length - pos) / 12 - np * 1 := by
          rw [Nat.mul_one]
        rw [h2, Nat.sub_mul_div _ _ _ (by omega), hs]
        omega
      have hrem : ((data.length - pos) / 12 - np) % np = (data.length - pos) / 12 % np := by
        rw [Nat.mod_eq_sub_mod hq_ge]
      unfold readFrames
      rw [readParticles_full np data pos fIdx 0 (by omega)]
      dsimp only
      rw [ih (pos + 12 * np) (fIdx + 1) (by omega) (by
        have h' : 12 * np * (r + 1) = 12 * np + 12 * np * r := by ring
        omega)]
      dsimp only
      simp only [hq', ht', hrem, hs]
      refine congrArg some (congrArg₂ Prod.mk ?_ (congrArg₂ Prod.mk rfl ?_))
      · -- the frame lists
        rw [range_succ_map r _ (fun i =>
            if i < s then
              (List.range np).map
                (fun j => posAt data (pos + 12 * np + 12 * (np * i + j)))
            else if i = s then
              (List.range ((data.length - pos) / 12 % np)).map
                (fun j => posAt data (pos + 12 * np + 12 * (np * s + j)))
            else []) (fun i => by
          dsimp only
          by_cases h1 : i < s
          · rw [if_pos (show i + 1 < s + 1 by omega), if_pos h1]
            have hg : (fun j => posAt data (pos + 12 * (np * (i + 1) + j))) =
                (fun j => posAt data (pos + 12 * np + 12 * (np * i + j))) := by
              funext j
              congr 1
              ring
            rw [hg]
          · by_cases h2 : i = s
            · rw [if_neg (show ¬ i + 1 < s + 1 by omega),
                if_pos (show i + 1 = s + 1 by omega), if_neg h1, if_pos h2]
              have hg : (fun j => posAt data (pos + 12 * (np * (s + 1) + j))) =
                  (fun j => posAt data (pos + 12 * np + 12 * (np * s + j))) := by
                funext j
                congr 1
                ring
              rw [hg]
            · rw [if_neg (show ¬ i + 1 < s + 1 by omega),
                if_neg (show ¬ i + 1 = s + 1 by omega), if_neg h1, if_neg h2])]
        rw [if_pos (show 0 < s + 1 by omega)]
        have hg0 : (fun j => posAt data (pos + 12 * (np * 0 + j))) =
            (fun j => posAt data (pos + 12 * j)) := by
          funext j
          congr 1
          ring
        rw [hg0]
      · -- the event lists
        rw [List.nil_append]
        have hn : r + 1 - (s + 1) - 1 = r - s - 1 := by omega
        rw [hn]
        have hh : fIdx + 1 + s = fIdx + (s + 1) := by ring
        rw [hh]
    · -- the very first frame truncates
      have hdiv : (data.length - pos) / 12 < np := by
        rw [Nat.div_lt_iff_lt_mul (by norm_num)]
        omega
      have ht0 : (data.length - pos) / 12 / np = 0 := Nat.div_eq_of_lt hdiv
      have hrem0 : (data.length - pos) / 12 % np = (data.length - pos) / 12 :=
        Nat.mod_eq_of_lt hdiv
      unfold readFrames
      rw [readParticles_trunc np data pos fIdx 0 hle (by omega)]
      dsimp only
      rw [readFrames_exhausted r data np hnp (fIdx + 1)]
      dsimp only
      simp only [ht0, hrem0, Nat.add_zero, Nat.zero_add, Nat.add_sub_cancel]
      refine congrArg some (congrArg₂ Prod.mk ?_ (congrArg₂ Prod.mk rfl ?_))
      · rw [range_succ_map r _ (fun _ => ([] : List Pos3)) (fun i => by
          dsimp only
          rw [if_neg (show ¬ i + 1 < 0 by omega), if_neg (show i + 1 ≠ 0 by omega)])]
        rw [if_neg (show ¬ (0 : Nat) < 0 by omega), if_pos rfl]
        have hg0 : (fun j => posAt data (pos + 12 * (np * 0 + j))) =
            (fun j => posAt data (pos + 12 * j)) := by
          funext j
          congr 1
          ring
        rw [hg0]
        simp
      · simp

/-- C4: when the stream runs short during the frame loop (fewer than 12
bytes at some expected Position), the frame being read keeps exactly the
positions parsed before the short read, no further positions enter it or
any later frame, and the loop still emits one frame per declared index —
`framesPerFile` frames in total, the later ones empty.  (Stated on the
frame loop itself: through `read_gravity_batch` the situation is
unreachable, since the particle-count correction guarantees the payload
covers the loop.) -/
theorem frame_loop_truncation_recovery (data : List Nat) (pos np fpf : Nat)
    (hle : pos ≤ data.length) (hlt : data.length < pos + 12 * np * fpf) :
    ∃ frames st evs,
      readFrames ⟨data, pos⟩ 0 np fpf = some (frames, st, evs) ∧
      frames.length = fpf ∧
      (∀ i, i < (data.length - pos) / 12 / np →
        frames.getD i [] =
          (List.range np).map (fun j => posAt data (pos + 12 * (np * i + j)))) ∧
      frames.getD ((data.length - pos) / 12 / np) [] =
        (List.range ((data.length - pos) / 12 % np)).map
          (fun j => posAt data
            (pos + 12 * (np * ((data.length - pos) / 12 / np) + j))) ∧
      (∀ i, (data.length - pos) / 12 / np < i → frames.getD i [] = []) := by
  have hnp : 0 < np := by
    rcases Nat.eq_zero_or_pos np with h0 | h
    · rw [h0] at hlt; simp at hlt; omega
    · exact h
  have hq_lt : (data.length - pos) / 12 < np * fpf := by
    rw [Nat.div_lt_iff_lt_mul (by norm_num)]
    have h' : np * fpf * 12 = 12 * np * fpf := by ring
    omega
  have ht_lt : (data.length - pos) / 12 / np < fpf := by
    rw [Nat.div_lt_iff_lt_mul hnp]
    have h' : fpf * np = np * fpf := by ring
    omega
  refine ⟨_, _, _, readFrames_trunc fpf data pos np 0 hle hlt, by simp, ?_, ?_, ?_⟩
  · intro i hi
    rw [getD_map_range _ _ _ _ (by omega)]
    rw [if_pos hi]
  · rw [getD_map_range _ _ _ _ ht_lt]
    rw [if_neg (by omega), if_pos rfl]
  · intro i hi
    by_cases hif : i < fpf
    · rw [getD_map_range _ _ _ _ hif]
      rw [if_neg (by omega), if_neg (by omega)]
    · rw [List.getD_eq_getElem?_getD, List.getElem?_eq_none (by simp; omega)]
      rfl

/-- Witness for C4: 30 bytes, 2 declared frames of 2 particles (48 bytes
needed); frame 0 is full, frame 1 truncates at its first particle. -/
theorem frame_loop_truncation_recovery_witness :
    (0 : Nat) ≤ (List.range 30).length ∧
    (List.range 30).length < 0 + 12 * 2 * 2 ∧
    ∃ frames st evs,
      readFrames ⟨List.range 30, 0⟩ 0 2 2 = some (frames, st, evs) ∧
      frames.length = 2 ∧
      (∀ i, i < ((List.range 30).length - 0) / 12 / 2 →
        frames.getD i [] =
          (List.range 2).map (fun j => posAt (List.range 30) (0 + 12 * (2 * i + j)))) ∧
      frames.getD (((List.range 30).length - 0) / 12 / 2) [] =
        (List.range (((List.range 30).length - 0) / 12 % 2)).map
          (fun j => posAt (List.range 30)
            (0 + 12 * (2 * (((List.range 30).length - 0) / 12 / 2) + j))) ∧
      (∀ i, ((List.range 30).length - 0) / 12 / 2 < i → frames.getD i [] = []) :=
  ⟨by decide, by decide,
   frame_loop_truncation_recovery (List.range 30) 0 2 2 (by decide) (by decide)⟩

/-- C7: the frame loop never consumes more bytes than the stream holds —
the final position stays within bounds — and whenever the declared data
extends past end-of-stream, a short read is detected and reported through
an incomplete-data diagnostic rather than any out-of-bounds access. -/
theorem loop_never_reads_past_end (data : List Nat) (pos np fpf fIdx : Nat)
    (hle : pos ≤ data.length) :
    ∃ frames st evs,
      readFrames ⟨data, pos⟩ fIdx np fpf = some (frames, st, evs) ∧
      st.data = data ∧ pos ≤ st.pos ∧ st.pos ≤ data.length ∧
      (data.length < pos + 12 * np * fpf →
        ∃ fi pi, DecodeEvent.incompleteData fi pi ∈ evs) := by
  by_cases hfit : pos + 12 * np * fpf ≤ data.length
  · refine ⟨_, _, _, readFrames_full fpf data pos np fIdx hfit, rfl,
      by dsimp only; omega, by dsimp only; omega, ?_⟩
    intro h
    exact absurd h (by omega)
  · refine ⟨_, _, _, readFrames_trunc fpf data pos np fIdx hle (by omega), rfl, hle,
      le_refl _, ?_⟩
    intro _
    exact ⟨_, _, List.mem_cons_self _ _⟩

/-- Witness for C7: a 5-byte stream against one declared frame of one
particle; the loop stops at the boundary and reports the short read. -/
theorem loop_never_reads_past_end_witness :
    (0 : Nat) ≤ ([5, 6, 7, 8, 9] : List Nat).length ∧
    ∃ frames st evs,
      readFrames ⟨[5, 6, 7, 8, 9], 0⟩ 3 1 1 = some (frames, st, evs) ∧
      st.data = [5, 6, 7, 8, 9] ∧ 0 ≤ st.pos ∧
      st.pos ≤ ([5, 6, 7, 8, 9] : List Nat).length ∧
      (([5, 6, 7, 8, 9] : List Nat).length < 0 + 12 * 1 * 1 →
        ∃ fi pi, DecodeEvent.incompleteData fi pi ∈ evs) :=
  ⟨by decide, loop_never_reads_past_end [5, 6, 7, 8, 9] 0 1 1 3 (by decide)⟩

theorem foldl_updateBatch_flatten (batches : List (List (List Vec3Q))) (acc : RangeAcc) :
    batches.foldl updateBatch acc = (allPositions batches).foldl updatePoint acc := by
  rw [allPositions, List.foldl_flatten, List.foldl_flatten]
  rfl

theorem foldl_updatePoint_proj (l : List Vec3Q) (acc : RangeAcc) :
    l.foldl updatePoint acc =
      ⟨(l.map (fun p => p.1)).foldl omin acc.min0,
       (l.map (fun p => p.2.1)).foldl omin acc.min1,
       (l.map (fun p => p.2.2)).foldl omin acc.min2,
       (l.map (fun p => p.1)).foldl omax acc.max0,
       (l.map (fun p => p.2.1)).foldl omax acc.max1,
       (l.map (fun p => p.2.2)).foldl omax acc.max2⟩ := by
  induction l generalizing acc with
  | nil => rfl
  | cons p rest ih =>
    rw [List.foldl_cons, ih]
    rfl

theorem foldl_omin_some (xs : List ℚ) (m : ℚ) :
    xs.foldl omin (some m) = some (xs.foldl min m) := by
  induction xs generalizing m with
  | nil => rfl
  | cons x xs ih => rw [List.foldl_cons, List.foldl_cons, omin, ih]

theorem foldl_omin_none (xs : List ℚ) : xs.foldl omin none = xs.min? := by
  cases xs with
  | nil => rfl
  | cons x xs => rw [List.foldl_cons, omin, foldl_omin_some, List.min?_cons']

theorem foldl_omax_some (xs : List ℚ) (m : ℚ) :
    xs.foldl omax (some m) = some (xs.foldl max m) := by
  induction xs generalizing m with
  | nil => rfl
  | cons x xs ih => rw [List.foldl_cons, List.foldl_cons, omax, ih]

theorem foldl_omax_none (xs : List ℚ) : xs.foldl omax none = xs.max? := by
  cases xs with
  | nil => rfl
  | cons x xs => rw [List.foldl_cons, omax, foldl_omax_some, List.max?_cons']

/-- The accumulated bounds equal the per-axis minima and maxima over every
decoded position of every batch. -/
theorem analyze_acc_eq (batches : List (List (List Vec3Q))) :
    batches.foldl updateBatch initAcc =
      ⟨((allPositions batches).map (fun p => p.1)).min?,
       ((allPositions batches).map (fun p => p.2.1)).min?,
       ((allPositions batches).map (fun p => p.2.2)).min?,
       ((allPositions batches).map (fun p => p.1)).max?,
       ((allPositions batches).map (fun p => p.2.1)).max?,
       ((allPositions batches).map (fun p => p.2.2)).max?⟩ := by
  rw [foldl_updateBatch_flatten, foldl_updatePoint_proj]
  simp only [initAcc, foldl_omin_none, foldl_omax_none]

theorem foldl_min_const (ys : List ℚ) (v : ℚ) (h : ∀ y ∈ ys, y = v) :
    ys.foldl min v = v := by
  induction ys with
  | nil => rfl
  | cons y ys ih =>
    rw [List.foldl_cons, h y (List.mem_cons_self _ _), min_self]
    exact ih (fun z hz => h z (List.mem_cons_of_mem _ hz))

theorem foldl_max_const (ys : List ℚ) (v : ℚ) (h : ∀ y ∈ ys, y = v) :
    ys.foldl max v = v := by
  induction ys with
  | nil => rfl
  | cons y ys ih =>
    rw [List.foldl_cons, h y (List.mem_cons_self _ _), max_self]
    exact ih (fun z hz => h z (List.mem_cons_of_mem _ hz))

theorem min?_const (v : ℚ) (ys : List ℚ) (h : ∀ y ∈ ys, y = v) :
    (v :: ys).min? = some v := by
  rw [List.min?_cons', foldl_min_const ys v h]

theorem max?_const (v : ℚ) (ys : List ℚ) (h : ∀ y ∈ ys, y = v) :
    (v :: ys).max? = some v := by
  rw [List.max?_cons', foldl_max_const ys v h]

/-- C8 (amended): when the decoded positions are nonempty and the largest
per-axis range is nonzero, `analyze_data_range` returns the accumulated
per-axis bounds and the suggested scale `10 / max_range`. -/
theorem analyze_scale_suggestion (batches : List (List (List Vec3Q)))
    (a b c d e f : ℚ)
    (hmin0 : ((allPositions batches).map (fun p => p.1)).min? = some a)
    (hmin1 : ((allPositions batches).map (fun p => p.2.1)).min? = some b)
    (hmin2 : ((allPositions batches).map (fun p => p.2.2)).min? = some c)
    (hmax0 : ((allPositions batches).map (fun p => p.1)).max? = some d)
    (hmax1 : ((allPositions batches).map (fun p => p.2.1)).max? = some e)
    (hmax2 : ((allPositions batches).map (fun p => p.2.2)).max? = some f)
    (hnz : max (d - a) (max (e - b) (f - c)) ≠ 0) :
    analyze_data_range batches =
      Except.ok (⟨some a, some b, some c, some d, some e, some f⟩,
                 10 / max (d - a) (max (e - b) (f - c))) := by
  unfold analyze_data_range
  rw [analyze_acc_eq, hmin0, hmin1, hmin2, hmax0, hmax1, hmax2]
  unfold suggestScale
  dsimp only
  rw [if_neg hnz]

/-- Witness for C8 (amended): extremes X ∈ [-5, 5], Y ∈ [0, 20],
Z ∈ [-2, 2] give `max_range = 20` and suggested scale `10 / 20 = 1/2`. -/
theorem analyze_scale_suggestion_witness :
    ((allPositions [[[((-5 : ℚ), 0, -2), ((5 : ℚ), 20, 2)]]]).map
        (fun p => p.1)).min? = some (-5) ∧
    ((allPositions [[[((-5 : ℚ), 0, -2), ((5 : ℚ), 20, 2)]]]).map
        (fun p => p.2.1)).min? = some 0 ∧
    ((allPositions [[[((-5 : ℚ), 0, -2), ((5 : ℚ), 20, 2)]]]).map
        (fun p => p.2.2)).min? = some (-2) ∧
    ((allPositions [[[((-5 : ℚ), 0, -2), ((5 : ℚ), 20, 2)]]]).map
        (fun p => p.1)).max? = some 5 ∧
    ((allPositions [[[((-5 : ℚ), 0, -2), ((5 : ℚ), 20, 2)]]]).map
        (fun p => p.2.1)).max? = some 20 ∧
    ((allPositions [[[((-5 : ℚ), 0, -2), ((5 : ℚ), 20, 2)]]]).map
        (fun p => p.2.2)).max? = some 2 ∧
    max ((5 : ℚ) - (-5)) (max ((20 : ℚ) - 0) ((2 : ℚ) - (-2))) ≠ 0 ∧
    analyze_data_range [[[((-5 : ℚ), 0, -2), ((5 : ℚ), 20, 2)]]] =
      Except.ok (⟨some (-5), some 0, some (-2), some 5, some 20, some 2⟩,
                 10 / max ((5 : ℚ) - (-5)) (max ((20 : ℚ) - 0) ((2 : ℚ) - (-2)))) :=
  ⟨by show ([(-5 : ℚ), 5]).min? = some (-5)
      rw [List.min?_cons']
      norm_num [min_def],
   by show ([(0 : ℚ), 20]).min? = some 0
      rw [List.min?_cons']
      norm_num [min_def],
   by show ([(-2 : ℚ), 2]).min? = some (-2)
      rw [List.min?_cons']
      norm_num [min_def],
   by show ([(-5 : ℚ), 5]).max? = some 5
      rw [List.max?_cons']
      norm_num [max_def],
   by show ([(0 : ℚ), 20]).max? = some 20
      rw [List.max?_cons']
      norm_num [max_def],
   by show ([(-2 : ℚ), 2]).max? = some 2
      rw [List.max?_cons']
      norm_num [max_def],
   by norm_num [max_def],
   analyze_scale_suggestion [[[((-5 : ℚ), 0, -2), ((5 : ℚ), 20, 2)]]]
     (-5) 0 (-2) 5 20 2
     (by show ([(-5 : ℚ), 5]).min? = some (-5)
         rw [List.min?_cons']
         norm_num [min_def])
     (by show ([(0 : ℚ), 20]).min? = some 0
         rw [List.min?_cons']
         norm_num [min_def])
     (by show ([(-2 : ℚ), 2]).min? = some (-2)
         rw [List.min?_cons']
         norm_num [min_def])
     (by show ([(-5 : ℚ), 5]).max? = some 5
         rw [List.max?_cons']
         norm_num [max_def])
     (by show ([(0 : ℚ), 20]).max? = some 20
         rw [List.max?_cons']
         norm_num [max_def])
     (by show ([(-2 : ℚ), 2]).max? = some 2
         rw [List.max?_cons']
         norm_num [max_def])
     (by norm_num [max_def])⟩

/-- C8 counterexample: a folder whose single decoded position makes every
axis range zero; `analyze_data_range` raises `ZeroDivisionError` instead of
returning a suggested scale. -/
theorem analyze_single_point_no_scale :
    analyze_data_range [[[((1 : ℚ), 2, 3)]]] =
      Except.error AnalyzeError.divisionByZero := by
  unfold analyze_data_range
  rw [analyze_acc_eq]
  rw [show ((allPositions [[[((1 : ℚ), 2, 3)]]]).map (fun p => p.1)).min? =
        some 1 from rfl,
      show ((allPositions [[[((1 : ℚ), 2, 3)]]]).map (fun p => p.2.1)).min? =
        some 2 from rfl,
      show ((allPositions [[[((1 : ℚ), 2, 3)]]]).map (fun p => p.2.2)).min? =
        some 3 from rfl,
      show ((allPositions [[[((1 : ℚ), 2, 3)]]]).map (fun p => p.1)).max? =
        some 1 from rfl,
      show ((allPositions [[[((1 : ℚ), 2, 3)]]]).map (fun p => p.2.1)).max? =
        some 2 from rfl,
      show ((allPositions [[[((1 : ℚ), 2, 3)]]]).map (fun p => p.2.2)).max? =
        some 3 from rfl]
  unfold suggestScale
  dsimp only
  rw [if_pos (by simp)]

/-- C10: whenever all decoded positions coincide (so the maximum per-axis
range is exactly 0), the unguarded `10.0 / max_range` raises
`ZeroDivisionError` and `analyze_data_range` fails instead of returning. -/
theorem analyze_coincident_points_division_error
    (batches : List (List (List Vec3Q))) (p : Vec3Q)
    (hall : ∀ q ∈ allPositions batches, q = p)
    (hne : allPositions batches ≠ []) :
    analyze_data_range batches = Except.error AnalyzeError.divisionByZero := by
  obtain ⟨x, xs, hx⟩ : ∃ x xs, allPositions batches = x :: xs := by
    cases h : allPositions batches with
    | nil => exact absurd h hne
    | cons x xs => exact ⟨x, xs, rfl⟩
  have hxp : x = p := hall x (by rw [hx]; exact List.mem_cons_self _ _)
  have hxs : ∀ q ∈ xs, q = p := fun q hq =>
    hall q (by rw [hx]; exact List.mem_cons_of_mem _ hq)
  unfold analyze_data_range
  rw [analyze_acc_eq, hx]
  simp only [List.map_cons, hxp]
  rw [min?_const p.1 _ (fun y hy => by
        obtain ⟨q, hq, rfl⟩ := List.mem_map.mp hy
        rw [hxs q hq]),
      min?_const p.2.1 _ (fun y hy => by
        obtain ⟨q, hq, rfl⟩ := List.mem_map.mp hy
        rw [hxs q hq]),
      min?_const p.2.2 _ (fun y hy => by
        obtain ⟨q, hq, rfl⟩ := List.mem_map.mp hy
        rw [hxs q hq]),
      max?_const p.1 _ (fun y hy => by
        obtain ⟨q, hq, rfl⟩ := List.mem_map.mp hy
        rw [hxs q hq]),
      max?_const p.2.1 _ (fun y hy => by
        obtain ⟨q, hq, rfl⟩ := List.mem_map.mp hy
        rw [hxs q hq]),
      max?_const p.2.2 _ (fun y hy => by
        obtain ⟨q, hq, rfl⟩ := List.mem_map.mp hy
        rw [hxs q hq])]
  unfold suggestScale
  dsimp only
  rw [if_pos (by simp)]

/-- Witness for C10: three copies of the point `(5, 5, 5)` across two
frames. -/
theorem analyze_coincident_points_division_error_witness :
    (∀ q ∈ allPositions [[[((5 : ℚ), 5, 5), ((5 : ℚ), 5, 5)], [((5 : ℚ), 5, 5)]]],
      q = ((5 : ℚ), 5, 5)) ∧
    allPositions [[[((5 : ℚ), 5, 5), ((5 : ℚ), 5, 5)], [((5 : ℚ), 5, 5)]]] ≠ [] ∧
    analyze_data_range [[[((5 : ℚ), 5, 5), ((5 : ℚ), 5, 5)], [((5 : ℚ), 5, 5)]]] =
      Except.error AnalyzeError.divisionByZero :=
  ⟨by decide, by decide,
   analyze_coincident_points_division_error
     [[[((5 : ℚ), 5, 5), ((5 : ℚ), 5, 5)], [((5 : ℚ), 5, 5)]]] ((5 : ℚ), 5, 5)
     (by decide) (by decide)⟩

theorem enumFrom_append_eq {α : Type} (l1 l2 : List α) (n : Nat) :
    (l1 ++ l2).enumFrom n = l1.enumFrom n ++ l2.enumFrom (n + l1.length) := by
  induction l1 generalizing n with
  | nil => simp
  | cons a l ih =>
    rw [List.cons_append, List.enumFrom_cons, List.enumFrom_cons, ih (n + 1),
        List.cons_append, List.length_cons]
    have h : n + 1 + l.length = n + (l.length + 1) := by ring
    rw [h]

theorem exportFrames_eq (frames : List (List Vec3Q)) (scale_factor : ℚ) :
    ∀ frame_counter : Nat,
      exportFrames frames scale_factor frame_counter =
        ((frames.enumFrom (frame_counter + 1)).map
          (fun nf => ⟨nf.1, nf.2.length, nf.2.map (scalePoint scale_factor)⟩),
         frame_counter + frames.length) := by
  induction frames with
  | nil => intro c; simp [exportFrames]
  | cons frame_data rest ih =>
    intro c
    rw [exportFrames, ih (c + 1), List.enumFrom_cons, List.map_cons]
    have h : c + (rest.length + 1) = c + 1 + rest.length := by ring
    rw [List.length_cons, h]

theorem export_foldl (batches : List (List (List Vec3Q))) (scale_factor : ℚ) :
    ∀ (files0 : List ObjFile) (c0 : Nat),
      batches.foldl (fun st b =>
          let p := exportFrames b scale_factor st.2
          (st.1 ++ p.1, p.2)) ((files0, c0) : List ObjFile × Nat) =
        (files0 ++ (batches.flatten.enumFrom (c0 + 1)).map
          (fun nf => ⟨nf.1, nf.2.length, nf.2.map (scalePoint scale_factor)⟩),
         c0 + batches.flatten.length) := by
  induction batches with
  | nil => intro files0 c0; simp
  | cons b rest ih =>
    intro files0 c0
    dsimp only at ih
    rw [List.foldl_cons]
    dsimp only
    rw [exportFrames_eq b scale_factor c0]
    dsimp only
    rw [ih]
    rw [List.flatten_cons, enumFrom_append_eq, List.map_append, List.append_assoc,
        List.length_append]
    have h1 : c0 + b.length + 1 = c0 + 1 + b.length := by ring
    have h2 : c0 + (b.length + rest.flatten.length) =
        c0 + b.length + rest.flatten.length := by ring
    rw [h1, h2]

/-- C9: the export writes exactly one OBJ file per decoded frame, in frame
order with the global counter as the file number, each file holding one
vertex entry per position, in the frame's order, every coordinate equal to
the decoded coordinate times the caller-supplied scale factor. -/
theorem export_objs_scaled_vertices (batches : List (List (List Vec3Q)))
    (scale_factor : ℚ) :
    export_to_obj_sequence batches scale_factor =
      (batches.flatten.enumFrom 1).map
        (fun nf => ⟨nf.1, nf.2.length,
          nf.2.map (fun p =>
            (p.1 * scale_factor, p.2.1 * scale_factor, p.2.2 * scale_factor))⟩) := by
  unfold export_to_obj_sequence
  rw [export_foldl batches scale_factor [] 0]
  rw [List.nil_append]
  rfl
